import Mathlib

/-!
Verification development for the compendium document-assembly engine and the
citation/footnote renderer.

The first namespace (`Curate`) embeds the curation applier: the functions
`buildMessageIndex`-style lookup, `formatMessageBlock`, and `applyOperations`
of the curation script.  Documents are ordered lists of text lines; the two
positional indices (`categoryIndex`, `messageIdToLine`) are association lists
with the overwrite-or-append semantics of a JavaScript `Map`.

The second namespace (`Footnotes`) embeds the citation renderer of
`structure-compendium-topics.js`: `moveToSentenceEnd` and
`applyWikipediaFootnotes`.  Entry text is modelled as a list of characters and
offsets as natural numbers.
-/

namespace Curate

/-- Character-level prefix test, the embedding of JavaScript
`line.startsWith(pat)`. -/
def startsWithChars : List Char → List Char → Bool
  | _, [] => true
  | [], _ :: _ => false
  | c :: cs, p :: ps => c == p && startsWithChars cs ps

/-- String prefix test on the underlying character lists. -/
def jsStartsWith (s pat : String) : Bool :=
  startsWithChars s.data pat.data

/-- Whitespace trim on both ends of the character list, the embedding of
JavaScript `String.prototype.trim` (and of Lean's `String.trim`) for the
whitespace characters the inputs contain. -/
def jsTrim (s : String) : String :=
  String.mk (((s.data.dropWhile Char.isWhitespace).reverse.dropWhile
    Char.isWhitespace).reverse)

/-- The part of a string before its first occurrence of a separator
character: the embedding of `s.split(sep)[0]`. -/
def jsSplitFirst (sep : Char) (s : String) : String :=
  String.mk (s.data.takeWhile (fun c => c != sep))

/-- Association list from string keys to line numbers, mirroring the
JavaScript `Map<string, number>` used by `applyOperations`: `setA` overwrites
the value of an existing key in place, otherwise appends the new key at the
end (JavaScript `Map.set`); `getA` looks the key up (`Map.get`). -/
abbrev AList := List (String × Nat)

/-- Lookup in the association list (JavaScript `Map.get`). -/
def getA (m : AList) (k : String) : Option Nat :=
  (m.find? (fun p => p.1 == k)).map (fun p => p.2)

/-- Insert-or-overwrite (JavaScript `Map.set`): an existing key keeps its
position and gets the new value, a new key is appended at the end. -/
def setA (m : AList) (k : String) (v : Nat) : AList :=
  if m.any (fun p => p.1 == k) then
    m.map (fun p => if p.1 == k then (k, v) else p)
  else m ++ [(k, v)]

/-- Key membership (JavaScript `Map.has`). -/
def hasKey (m : AList) (k : String) : Bool :=
  (getA m k).isSome

/-- One slim chat message, as consumed by `formatMessageBlock`: the fields
read by the code, with `Option` for fields the code guards with `?.` or
truthiness checks. -/
structure Msg where
  id : String
  timestamp : Option String
  author : Option String
  content : String
  replyTo : Option String
deriving DecidableEq

/-- The message index handed to `applyOperations` (built from the slim input
JSON): a map from message id to message. -/
abbrev MsgIndex := List (String × Msg)

/-- Lookup in the message index (JavaScript `Map.get` / `Map.has`). -/
def mfind? (idx : MsgIndex) (k : String) : Option Msg :=
  (idx.find? (fun p => p.1 == k)).map (fun p => p.2)

/-- JavaScript truthiness of an optional string: `undefined` and the empty
string are falsy. -/
def optTruthy : Option String → Bool
  | none => false
  | some s => !s.isEmpty

/-- The `content.slice(0, 60)` of the reply snippet. -/
def sliceTo60 (s : String) : String :=
  String.mk (s.toList.take 60)

/-- The base line of a rendered message block:
`[date] [author] content[id]` with the date taken from the timestamp up to
the first `T` (or `UNKNOWN-DATE` when the timestamp is falsy) and the author
bracket present only when the author is truthy. -/
def msgBaseLine (msg : Msg) : String :=
  let dateStr :=
    match msg.timestamp with
    | some t => if t.isEmpty then ("UNKNOWN-DATE") else jsSplitFirst 'T' t
    | none => ("UNKNOWN-DATE")
  let author :=
    match msg.author with
    | some a => if a.isEmpty then ("") else ("[" ++ a ++ "] ")
    | none => ("")
  "[" ++ dateStr ++ "] " ++ author ++ jsTrim msg.content ++ "[" ++ msg.id ++ "]"

/-- Embedding of `formatMessageBlock(msg, msgIndex)`: when the message carries
a truthy `replyTo` the block is prefaced with a quoted snippet of the
referenced message when that id is present in the message index, and with a
plain `(Reply to ID: ...)` line otherwise. -/
def formatMessageBlock (msg : Msg) (msgIdx : MsgIndex) : String :=
  let base := msgBaseLine msg
  match msg.replyTo with
  | some r =>
    if r.isEmpty then base
    else
      match mfind? msgIdx r with
      | some replyMsg =>
        "> In reply to: \"" ++ jsTrim (sliceTo60 replyMsg.content) ++ "\"\n" ++ base
      | none => "> (Reply to ID: " ++ r ++ ")\n" ++ base
  | none => base

/-- Position descriptor of an operation: either a plain string (the code
compares it against `prepend` and `append`) or an object with optional
`afterId` / `beforeId` fields; an absent or null position behaves like an
object with both fields falsy. -/
inductive Position where
  | pstr (s : String)
  | pobj (afterId : Option String) (beforeId : Option String)
deriving DecidableEq

/-- One insertion operation as consumed by `applyOperations`. -/
structure Operation where
  messageId : String
  category : String
  position : Position
deriving DecidableEq

/-- The mutable state of `applyOperations` while a batch runs: the working
copy of the document lines, the two positional indices, the count of blocks
actually inserted, and the number of warnings reported so far (each `warn`
call in the loop counts one). -/
structure ApplyState where
  newLines : List String
  categoryIndex : AList
  messageIdToLine : AList
  insertedCount : Nat
  warnings : Nat
deriving DecidableEq

/-- Embedding of the anchor regex match `line.match(/\[(\d+)\]$/)`: the
trailing `[digits]` token of a line, when present, with at least one digit. -/
def lineEndId (line : String) : Option String :=
  match line.toList.reverse with
  | ']' :: rest =>
      let digits := rest.takeWhile Char.isDigit
      if digits.isEmpty then none
      else
        match rest.drop digits.length with
        | '[' :: _ => some (String.mk digits.reverse)
        | _ => none
  | _ => none

/-- The initial category index: every line starting with `## ` is recorded
under its trimmed text (later lines overwrite earlier ones, as with a map). -/
def scanCats (lines : List String) : AList :=
  (lines.enum).foldl
    (fun m p => if jsStartsWith p.2 ("## ") then setA m (jsTrim p.2) p.1 else m) []

/-- The initial anchor index: every line with a trailing `[digits]` anchor is
recorded under the digits (later lines overwrite earlier ones). -/
def scanIds (lines : List String) : AList :=
  (lines.enum).foldl
    (fun m p =>
      match lineEndId p.2 with
      | some msgid => setA m msgid p.1
      | none => m) []

/-- The state of `applyOperations` right after the initial indexing scan and
before any operation runs. -/
def initState (lines : List String) : ApplyState :=
  { newLines := lines
    categoryIndex := scanCats lines
    messageIdToLine := scanIds lines
    insertedCount := 0
    warnings := 0 }

/-- Section resolution: reuse the recorded line of an existing category
header, otherwise push a blank line, the header and a blank line at document
end and record the header's index (`newLines.length - 2`). -/
def resolveCategory (st : ApplyState) (category : String) : ApplyState × Nat :=
  match getA st.categoryIndex category with
  | some i => (st, i)
  | none =>
    let lines' := st.newLines ++ [(""), category, ("")]
    let catLine := lines'.length - 2
    ({ st with newLines := lines', categoryIndex := setA st.categoryIndex category catLine },
      catLine)

/-- The scan of the `append` branch: the first line after `catLine` that
starts a new `## ` header, or the document length when there is none. -/
def nextCatScan (lines : List String) (catLine : Nat) : Nat :=
  match (lines.drop (catLine + 1)).findIdx? (fun l => jsStartsWith l ("## ")) with
  | some j => catLine + 1 + j
  | none => lines.length

/-- Position resolution: returns the insertion line together with the number
of warnings this step reports (1 exactly on the two missing-reference
fallbacks).  A string position other than `prepend`/`append`, or an object
with both anchor fields falsy, keeps the default `catLine + 1`. -/
def resolvePosition (st : ApplyState) (catLine : Nat) (pos : Position) : Nat × Nat :=
  match pos with
  | .pstr s =>
    if s == "prepend" then (catLine + 1, 0)
    else if s == "append" then (nextCatScan st.newLines catLine, 0)
    else (catLine + 1, 0)
  | .pobj afterId beforeId =>
    if optTruthy afterId then
      match getA st.messageIdToLine (afterId.getD ("")) with
      | some refLine => (refLine + 1, 0)
      | none => (nextCatScan st.newLines catLine, 1)
    else if optTruthy beforeId then
      match getA st.messageIdToLine (beforeId.getD ("")) with
      | some refLine => (refLine, 0)
      | none => (catLine + 1, 1)
    else (catLine + 1, 0)

/-- JavaScript `array.splice(n, 0, a)`: insert `a` at index `n`, clamping to
the end when `n` exceeds the length. -/
def spliceIns (l : List String) (n : Nat) (a : String) : List String :=
  l.take n ++ a :: l.drop n

/-- The tail of one successful insertion: splice the block in, record its
anchor, count it, and shift every recorded category index and every other
recorded anchor index at or after the insertion point by one. -/
def finishInsert (st : ApplyState) (msgId block : String) (insertLine warnInc : Nat) :
    ApplyState :=
  { newLines := spliceIns st.newLines insertLine block
    categoryIndex :=
      st.categoryIndex.map (fun p => if insertLine ≤ p.2 then (p.1, p.2 + 1) else p)
    messageIdToLine :=
      (setA st.messageIdToLine msgId insertLine).map
        (fun p => if insertLine ≤ p.2 ∧ p.1 ≠ msgId then (p.1, p.2 + 1) else p)
    insertedCount := st.insertedCount + 1
    warnings := st.warnings + warnInc }

/-- One iteration of the `applyOperations` loop: skip with a warning when the
message id is absent from the input index, skip silently when its anchor is
already recorded, otherwise render the block, resolve the section and the
position, and insert. -/
def step (idx : MsgIndex) (st : ApplyState) (op : Operation) : ApplyState :=
  match mfind? idx op.messageId with
  | none => { st with warnings := st.warnings + 1 }
  | some msg =>
    if hasKey st.messageIdToLine op.messageId then st
    else
      let block := formatMessageBlock msg idx
      let res := resolveCategory st (jsTrim op.category)
      let pos := resolvePosition res.1 res.2 op.position
      finishInsert res.1 op.messageId block pos.1 pos.2

/-- The state after a whole batch of operations. -/
def applyOpsState (lines : List String) (ops : List Operation) (idx : MsgIndex) :
    ApplyState :=
  ops.foldl (step idx) (initState lines)

/-- Embedding of `applyOperations(markdownLines, operations, msgIndex)`: the
final joined document text. -/
def applyOperations (lines : List String) (ops : List Operation) (idx : MsgIndex) :
    String :=
  String.intercalate ("\n") (applyOpsState lines ops idx).newLines

end Curate

namespace Footnotes

/-- The sentence terminators of the regex `[.!?]` in `moveToSentenceEnd`. -/
def isTerm (c : Char) : Bool :=
  c == '.' || c == '!' || c == '?'

/-- The closing characters of the regex `["')\]]` skipped right after a
terminator. -/
def isCloser (c : Char) : Bool :=
  c == '"' || c == '\'' || c == ')' || c == ']'

/-- The closing-character loop
`while (idx < n && closer(text[idx])) idx++`: advance past the maximal run of
closing characters starting at `idx`. -/
def skipClosers (text : List Char) (idx : Nat) : Nat :=
  idx + ((text.drop idx).takeWhile isCloser).length

/-- Embedding of `moveToSentenceEnd(text, atChar)`: clamp the offset into the
text, then look for the first sentence terminator anywhere in the remaining
text; if found, return the position right after it extended past closing
characters; otherwise return the position of the next line break, or the end
of the text when there is none. -/
def moveToSentenceEnd (text : List Char) (atChar : Nat) : Nat :=
  let n := text.length
  let start := min n atChar
  if n ≤ start then n
  else
    let tail := text.drop start
    match tail.findIdx? isTerm with
    | none =>
      match tail.findIdx? (fun c => c == '\n') with
      | none => n
      | some nl => start + nl
    | some mi => skipClosers text (start + mi + 1)

/-- Formalisation of the snapping rule exactly as the claim states it: scan
forward for a terminator, but fall back to the line break as soon as a line
break occurs before any terminator.  Used only to compare the claim's words
with the code's behaviour. -/
def claimSnap (text : List Char) (atChar : Nat) : Nat :=
  let n := text.length
  let start := min n atChar
  let tail := text.drop start
  match tail.findIdx? (fun c => isTerm c || c == '\n') with
  | none => n
  | some i =>
    if isTerm (tail.getD i ' ') then skipClosers text (start + i + 1)
    else start + i

/-- One raw citation request of an entry, as found in the model output:
`atChar` is `none` when the field is not an integer, `sources` carries the
raw source message ids. -/
structure CitationInsert where
  atChar : Option Int
  sources : List String
deriving DecidableEq

/-- One entry of the model output, with the fields `applyWikipediaFootnotes`
reads. -/
structure Entry where
  entryId : String
  type : String
  text : List Char
  citationInserts : List CitationInsert
deriving DecidableEq

/-- A normalised citation request: a validated in-bounds offset and the
trimmed, non-empty source message ids. -/
structure NIns where
  atChar : Nat
  messageIds : List String
deriving DecidableEq

/-- Normalisation and validation of one raw citation request: trim the
source ids and drop the empty ones, keep the request only when its offset is
an integer within `[0, text.length]`. -/
def normValid? (textLen : Nat) (ins : CitationInsert) : Option NIns :=
  match ins.atChar with
  | some a =>
    if 0 ≤ a ∧ a ≤ (textLen : Int) then
      some { atChar := a.toNat
             messageIds := (ins.sources.map Curate.jsTrim).filter (fun s => !s.isEmpty) }
    else none
  | none => none

/-- The normalisation-and-validation pass at the top of
`applyWikipediaFootnotes`. -/
def validNormInserts (textLen : Nat) (inserts : List CitationInsert) : List NIns :=
  inserts.filterMap (normValid? textLen)

/-- The entry restricted to its valid citation requests, used to state that
invalid requests are simply excluded. -/
def restrictValid (entry : Entry) : Entry :=
  { entry with citationInserts :=
      entry.citationInserts.filter (fun ins => (normValid? entry.text.length ins).isSome) }

/-- Grouping map from snapped offset to the requests that snapped there, in
first-seen key order with each group in supplied order (JavaScript `Map` of
arrays). -/
abbrev Groups := List (Nat × List NIns)

/-- Add one request under its snapped offset: append to the existing group or
create a new group at the end. -/
def addGroup (gs : Groups) (k : Nat) (ins : NIns) : Groups :=
  if gs.any (fun p => p.1 == k) then
    gs.map (fun p => if p.1 == k then (p.1, p.2 ++ [ins]) else p)
  else gs ++ [(k, [ins])]

/-- The grouping loop of `applyWikipediaFootnotes`: each valid request is
snapped with `moveToSentenceEnd` and appended to its group. -/
def buildGroups (text : List Char) (inserts : List NIns) : Groups :=
  inserts.foldl (fun gs ins => addGroup gs (moveToSentenceEnd text ins.atChar) ins) []

/-- Lookup of a group's request list (`groups.get(at) || []`). -/
def lookupG (gs : Groups) (k : Nat) : List NIns :=
  ((gs.find? (fun p => p.1 == k)).map (fun p => p.2)).getD []

/-- First-seen-order de-duplication of source ids
(`Array.from(new Set(ids))`). -/
def dedupFirst (seen : List String) : List String → List String
  | [] => []
  | x :: xs => if x ∈ seen then dedupFirst seen xs else x :: dedupFirst (x :: seen) xs

/-- The inner numbering loop over one group: each request receives the next
reference number together with its de-duplicated source ids. -/
def numberGroup (ref : Nat) : List NIns → List (Nat × List String)
  | [] => []
  | ins :: rest => (ref, dedupFirst [] ins.messageIds) :: numberGroup (ref + 1) rest

/-- One marker text `[n]`. -/
def fmtMarker (n : Nat) : String :=
  "[" ++ toString n ++ "]"

/-- The numbering state threaded through the sorted snapped offsets:
the next reference number, the footnote table rows built so far, the pending
marker insertions, and — as bookkeeping for the statements below — the list
of (snapped offset, reference number) pairs in assignment order. -/
structure NumState where
  refNumber : Nat
  footnotes : List (Nat × List String)
  insertMarkers : List (Nat × String)
  assignments : List (Nat × Nat)
deriving DecidableEq

/-- Process one snapped offset: number its group's requests sequentially,
extend the footnote table, and push one concatenated marker for the offset. -/
def processGroup (st : NumState) (at_ : Nat) (insList : List NIns) : NumState :=
  let fns := numberGroup st.refNumber insList
  { refNumber := st.refNumber + insList.length
    footnotes := st.footnotes ++ fns
    insertMarkers :=
      st.insertMarkers ++ [(at_, String.join (fns.map (fun p => fmtMarker p.1)))]
    assignments := st.assignments ++ fns.map (fun p => (at_, p.1)) }

/-- The outer numbering loop over the ascending snapped offsets. -/
def numberLoop (gs : Groups) : NumState → List Nat → NumState
  | st, [] => st
  | st, a :: rest => numberLoop gs (processGroup st a (lookupG gs a)) rest

/-- Insert one marker string at a character offset
(`text.slice(0, atChar) + marker + text.slice(atChar)`). -/
def spliceMarker (m : Nat × String) (text : List Char) : List Char :=
  text.take m.1 ++ m.2.toList ++ text.drop m.1

/-- Apply the pending markers from the highest offset to the lowest so that
lower offsets stay valid. -/
def applyMarkers (markers : List (Nat × String)) (text : List Char) : List Char :=
  markers.foldr spliceMarker text

/-- The groups of an entry's valid requests, keyed by snapped offset. -/
def entryGroups (entry : Entry) : Groups :=
  buildGroups entry.text (validNormInserts entry.text.length entry.citationInserts)

/-- The snapped offsets sorted ascending
(`Array.from(groups.keys()).sort((a, b) => a - b)`). -/
def sortedKeys (entry : Entry) : List Nat :=
  List.insertionSort (fun a b => a ≤ b) ((entryGroups entry).map (fun p => p.1))

/-- The final numbering state of one entry. -/
def footnoteState (entry : Entry) : NumState :=
  numberLoop (entryGroups entry)
    { refNumber := 1, footnotes := [], insertMarkers := [], assignments := [] }
    (sortedKeys entry)

/-- The rendered entry produced by `applyWikipediaFootnotes`. -/
structure RenderedEntry where
  entryId : String
  type : String
  text : List Char
  footnotes : List (Nat × List String)
deriving DecidableEq

/-- Embedding of `applyWikipediaFootnotes(entry)`: validate and normalise the
citation requests, group them by snapped offset, number the groups in
ascending offset order, and splice the markers into the text from the highest
offset down. -/
def applyWikipediaFootnotes (entry : Entry) : RenderedEntry :=
  let st := footnoteState entry
  { entryId := entry.entryId
    type := entry.type
    text := applyMarkers st.insertMarkers entry.text
    footnotes := st.footnotes }

end Footnotes

namespace Footnotes

/-- Filtering a list by success of an optional transformation and then
mapping it is the same as mapping it directly. -/
lemma filterMap_filter_isSome {α β : Type} (f : α → Option β) (l : List α) :
    (l.filter (fun a => (f a).isSome)).filterMap f = l.filterMap f := by
  induction l with
  | nil => rfl
  | cons a rest ih =>
    cases hfa : f a with
    | none => simp [List.filter_cons, List.filterMap_cons, hfa, ih]
    | some b => simp [List.filter_cons, List.filterMap_cons, hfa, ih]

/-- The restricted entry has the same valid request set. -/
lemma validNormInserts_restrict (entry : Entry) :
    validNormInserts (restrictValid entry).text.length
        (restrictValid entry).citationInserts =
      validNormInserts entry.text.length entry.citationInserts := by
  unfold restrictValid validNormInserts
  exact filterMap_filter_isSome _ _

/-- C8.  Citation requests with an out-of-bounds or non-integer offset are
excluded without any further effect: the rendered entry equals the rendering
of the entry restricted to its valid requests; and an entry with no valid
request renders with its text unchanged and an empty footnote table. -/
theorem claim8_invalid_requests_excluded (entry : Entry) :
    applyWikipediaFootnotes (restrictValid entry) = applyWikipediaFootnotes entry ∧
    (validNormInserts entry.text.length entry.citationInserts = [] →
      (applyWikipediaFootnotes entry).text = entry.text ∧
      (applyWikipediaFootnotes entry).footnotes = []) := by
  constructor
  · have hv := validNormInserts_restrict entry
    have hg : entryGroups (restrictValid entry) = entryGroups entry := by
      unfold entryGroups
      rw [hv]
      rfl
    have hk : sortedKeys (restrictValid entry) = sortedKeys entry := by
      unfold sortedKeys
      rw [hg]
    have hs : footnoteState (restrictValid entry) = footnoteState entry := by
      unfold footnoteState
      rw [hg, hk]
    unfold applyWikipediaFootnotes
    rw [hs]
    rfl
  · intro h
    have hg : entryGroups entry = [] := by
      unfold entryGroups
      rw [h]
      rfl
    have hk : sortedKeys entry = [] := by
      unfold sortedKeys
      rw [hg]
      rfl
    have hs : footnoteState entry =
        { refNumber := 1, footnotes := [], insertMarkers := [], assignments := [] } := by
      unfold footnoteState
      rw [hg, hk]
      rfl
    unfold applyWikipediaFootnotes
    rw [hs]
    exact ⟨rfl, rfl⟩

/-- A successful index search yields an element satisfying the predicate. -/
lemma findIdx?_some_getElem {α : Type} {l : List α} {p : α → Bool} {i : Nat}
    (h : l.findIdx? p = some i) : ∃ c, l[i]? = some c ∧ p c = true := by
  obtain ⟨hlt, hp, _⟩ := List.findIdx?_eq_some_iff_getElem.mp h
  exact ⟨l[i], by simp, hp⟩

/-- A successful index search stays in bounds. -/
lemma findIdx?_some_lt {α : Type} {l : List α} {p : α → Bool} {i : Nat}
    (h : l.findIdx? p = some i) : i < l.length := by
  obtain ⟨hlt, _, _⟩ := List.findIdx?_eq_some_iff_getElem.mp h
  exact hlt

/-- A successful index search returns the least satisfying index. -/
lemma findIdx?_some_least {α : Type} {l : List α} {p : α → Bool} {i : Nat}
    (h : l.findIdx? p = some i) :
    ∀ j c, j < i → l[j]? = some c → p c = false := by
  obtain ⟨hlt, _, hleast⟩ := List.findIdx?_eq_some_iff_getElem.mp h
  intro j c hj hc
  have hjl : j < l.length := Nat.lt_trans hj hlt
  have hcl : l[j] = c := by
    rw [List.getElem?_eq_getElem hjl] at hc
    exact Option.some.inj hc
  have := hleast j hj
  rw [hcl] at this
  simpa using this

/-- Every position inside the taken-while run satisfies the predicate. -/
lemma takeWhile_pos {α : Type} (p : α → Bool) (l : List α) (i : Nat)
    (h : i < (l.takeWhile p).length) :
    ∃ c, l[i]? = some c ∧ p c = true := by
  induction l generalizing i with
  | nil => simp at h
  | cons a rest ih =>
    cases hp : p a with
    | false =>
      rw [List.takeWhile_cons_of_neg (by simp [hp])] at h
      simp at h
    | true =>
      rw [List.takeWhile_cons_of_pos hp] at h
      cases i with
      | zero => exact ⟨a, by simp, hp⟩
      | succ i =>
        obtain ⟨c, hc, hpc⟩ := ih i (by simpa using h)
        exact ⟨c, by simpa using hc, hpc⟩

/-- The position right after the taken-while run fails the predicate, unless
the run covers the whole list. -/
lemma takeWhile_boundary {α : Type} (p : α → Bool) (l : List α) :
    (l.takeWhile p).length = l.length ∨
    ∃ c, l[(l.takeWhile p).length]? = some c ∧ p c = false := by
  induction l with
  | nil => left; rfl
  | cons a rest ih =>
    cases hp : p a with
    | false =>
      rw [List.takeWhile_cons_of_neg (by simp [hp])]
      right
      exact ⟨a, by simp, hp⟩
    | true =>
      rw [List.takeWhile_cons_of_pos hp]
      rcases ih with h | ⟨c, hc, hpc⟩
      · left
        simpa using h
      · right
        exact ⟨c, by simpa using hc, hpc⟩

/-- The taken-while run is no longer than the list. -/
lemma takeWhile_len_le {α : Type} (p : α → Bool) (l : List α) :
    (l.takeWhile p).length ≤ l.length :=
  (List.takeWhile_sublist p).length_le

/-- Sentence terminators are not alphanumeric. -/
lemma isTerm_not_alnum (c : Char) (h : isTerm c = true) : c.isAlphanum = false := by
  simp [isTerm] at h
  rcases h with (h | h) | h <;> subst h <;> decide

/-- Closing characters are not alphanumeric. -/
lemma isCloser_not_alnum (c : Char) (h : isCloser c = true) : c.isAlphanum = false := by
  simp [isCloser] at h
  rcases h with ((h | h) | h) | h <;> subst h <;> decide

/-- The structural case split of `moveToSentenceEnd`: the snapped offset is
the end of the text, or points at a line break, or is directly preceded by a
sentence terminator or a closing character. -/
lemma moveToSentenceEnd_cases (text : List Char) (atChar : Nat) :
    moveToSentenceEnd text atChar = text.length ∨
    text[moveToSentenceEnd text atChar]? = some '\n' ∨
    (∃ j c, moveToSentenceEnd text atChar = j + 1 ∧ text[j]? = some c ∧
      (isTerm c = true ∨ isCloser c = true)) := by
  by_cases hle : text.length ≤ atChar
  · left
    have hm : min text.length atChar = text.length := Nat.min_eq_left hle
    simp [moveToSentenceEnd, hm]
  · have hlt : atChar < text.length := Nat.lt_of_not_le hle
    have hm : min text.length atChar = atChar := Nat.min_eq_right (Nat.le_of_lt hlt)
    rcases hterm : (text.drop atChar).findIdx? isTerm with _ | mi
    · rcases hnl : (text.drop atChar).findIdx? (fun c => c == '\n') with _ | nl
      · left
        simp [moveToSentenceEnd, hm, hle, hterm, hnl]
      · right; left
        have hmts : moveToSentenceEnd text atChar = atChar + nl := by
          simp [moveToSentenceEnd, hm, hle, hterm, hnl]
        obtain ⟨c, hc, hpc⟩ := findIdx?_some_getElem hnl
        rw [List.getElem?_drop] at hc
        have hceq : c = '\n' := by simpa using hpc
        rw [hmts, hc, hceq]
    · right; right
      have hmts : moveToSentenceEnd text atChar =
          skipClosers text (atChar + mi + 1) := by
        simp [moveToSentenceEnd, hm, hle, hterm]
      obtain ⟨c, hc, hpc⟩ := findIdx?_some_getElem hterm
      rw [List.getElem?_drop] at hc
      have hk : skipClosers text (atChar + mi + 1) =
          (atChar + mi + 1) + ((text.drop (atChar + mi + 1)).takeWhile isCloser).length :=
        rfl
      cases hk0 : ((text.drop (atChar + mi + 1)).takeWhile isCloser).length with
      | zero =>
        refine ⟨atChar + mi, c, ?_, hc, Or.inl hpc⟩
        rw [hmts, hk, hk0]
      | succ k1 =>
        obtain ⟨c', hc', hpc'⟩ :=
          takeWhile_pos isCloser (text.drop (atChar + mi + 1)) k1 (by omega)
        rw [List.getElem?_drop] at hc'
        refine ⟨atChar + mi + 1 + k1, c', ?_, hc', Or.inr hpc'⟩
        rw [hmts, hk, hk0]
        omega

/-- A successful optional index read yields a member of the list. -/
lemma mem_of_getElem_some {α : Type} {l : List α} {n : Nat} {a : α}
    (h : l[n]? = some a) : a ∈ l := by
  obtain ⟨hlt, hval⟩ := List.getElem?_eq_some_iff.mp h
  rw [← hval]
  exact List.getElem_mem hlt

/-- A successful optional index read is in bounds. -/
lemma lt_of_getElem_some {α : Type} {l : List α} {n : Nat} {a : α}
    (h : l[n]? = some a) : n < l.length :=
  (List.getElem?_eq_some_iff.mp h).1

/-- C2 counterexample: on `"ab\ncd."` at offset 0 the code snaps past the
line break to the position after the later period (6), while the claimed rule
— fall back to the line break when no terminator occurs before it — would
snap to the line break position (2). -/
theorem claim2_counterexample :
    moveToSentenceEnd (("ab\ncd.").toList) 0 = 6 ∧
    claimSnap (("ab\ncd.").toList) 0 = 2 ∧
    moveToSentenceEnd (("ab\ncd.").toList) 0 ≠ claimSnap (("ab\ncd.").toList) 0 := by
  refine ⟨by decide, by decide, by decide⟩

/-- C2 amended: for an offset within `[0, length]`, if a terminator occurs at
or after the offset anywhere in the remaining text — even past a line break —
the snapped offset is the position immediately after the first such
terminator, extended past the maximal run of closing characters; only when no
terminator occurs at all is the snapped offset the position of the first line
break after the offset, or the end of the text when there is none. -/
theorem claim2_amended_snapping (text : List Char) (atChar : Nat)
    (hle : atChar ≤ text.length) :
    (∃ j c, atChar ≤ j ∧ text[j]? = some c ∧ isTerm c = true ∧
      (∀ k ck, atChar ≤ k → k < j → text[k]? = some ck → isTerm ck = false) ∧
      j + 1 ≤ moveToSentenceEnd text atChar ∧
      moveToSentenceEnd text atChar ≤ text.length ∧
      (∀ k ck, j + 1 ≤ k → k < moveToSentenceEnd text atChar →
        text[k]? = some ck → isCloser ck = true) ∧
      (moveToSentenceEnd text atChar = text.length ∨
        ∃ cr, text[moveToSentenceEnd text atChar]? = some cr ∧
          isCloser cr = false)) ∨
    ((∀ k ck, atChar ≤ k → text[k]? = some ck → isTerm ck = false) ∧
      ((∃ j, atChar ≤ j ∧ text[j]? = some '\n' ∧
          (∀ k ck, atChar ≤ k → k < j → text[k]? = some ck → ck ≠ '\n') ∧
          moveToSentenceEnd text atChar = j) ∨
        ((∀ k ck, atChar ≤ k → text[k]? = some ck → ck ≠ '\n') ∧
          moveToSentenceEnd text atChar = text.length))) := by
  by_cases hge : text.length ≤ atChar
  · right
    have hr : moveToSentenceEnd text atChar = text.length := by
      simp [moveToSentenceEnd, Nat.min_eq_left hge]
    have hnone : ∀ k (ck : Char), atChar ≤ k → text[k]? = some ck → False := by
      intro k ck hk hck
      have := lt_of_getElem_some hck
      omega
    exact ⟨fun k ck hk hck => absurd hck (fun h => hnone k ck hk h),
      Or.inr ⟨fun k ck hk hck => absurd hck (fun h => hnone k ck hk h), hr⟩⟩
  · have hlt : atChar < text.length := Nat.lt_of_not_le hge
    have hm : min text.length atChar = atChar := Nat.min_eq_right (Nat.le_of_lt hlt)
    rcases hterm : (text.drop atChar).findIdx? isTerm with _ | mi
    · right
      have hnoterm : ∀ k ck, atChar ≤ k → text[k]? = some ck → isTerm ck = false := by
        intro k ck hk hck
        have hkl : k < text.length := lt_of_getElem_some hck
        have hdrop : (text.drop atChar)[k - atChar]? = some ck := by
          rw [List.getElem?_drop]
          have : atChar + (k - atChar) = k := by omega
          rw [this]
          exact hck
        exact List.findIdx?_eq_none_iff.mp hterm ck (mem_of_getElem_some hdrop)
      refine ⟨hnoterm, ?_⟩
      rcases hnl : (text.drop atChar).findIdx? (fun c => c == '\n') with _ | nl
      · right
        have hr : moveToSentenceEnd text atChar = text.length := by
          simp [moveToSentenceEnd, hm, hge, hterm, hnl]
        refine ⟨?_, hr⟩
        intro k ck hk hck hckeq
        have hdrop : (text.drop atChar)[k - atChar]? = some ck := by
          rw [List.getElem?_drop]
          have : atChar + (k - atChar) = k := by omega
          rw [this]
          exact hck
        have := List.findIdx?_eq_none_iff.mp hnl ck (mem_of_getElem_some hdrop)
        rw [hckeq] at this
        simp at this
      · left
        have hr : moveToSentenceEnd text atChar = atChar + nl := by
          simp [moveToSentenceEnd, hm, hge, hterm, hnl]
        obtain ⟨c, hc, hpc⟩ := findIdx?_some_getElem hnl
        rw [List.getElem?_drop] at hc
        have hceq : c = '\n' := by simpa using hpc
        refine ⟨atChar + nl, Nat.le_add_right _ _, by rw [hc, hceq], ?_, hr⟩
        intro k ck hk hkj hck hckeq
        have hleast := findIdx?_some_least hnl (k - atChar) ck (by omega) ?_
        · rw [hckeq] at hleast
          simp at hleast
        · rw [List.getElem?_drop]
          have : atChar + (k - atChar) = k := by omega
          rw [this]
          exact hck
    · left
      obtain ⟨c, hc, hpc⟩ := findIdx?_some_getElem hterm
      rw [List.getElem?_drop] at hc
      have hmts : moveToSentenceEnd text atChar =
          skipClosers text (atChar + mi + 1) := by
        simp [moveToSentenceEnd, hm, hge, hterm]
      have hmlt : atChar + mi < text.length := by
        have := findIdx?_some_lt hterm
        simp at this
        omega
      have hk0 : skipClosers text (atChar + mi + 1) =
          (atChar + mi + 1) +
            ((text.drop (atChar + mi + 1)).takeWhile isCloser).length := rfl
      have hkle : ((text.drop (atChar + mi + 1)).takeWhile isCloser).length ≤
          text.length - (atChar + mi + 1) := by
        have h1 := takeWhile_len_le isCloser (text.drop (atChar + mi + 1))
        simpa using h1
      refine ⟨atChar + mi, c, Nat.le_add_right _ _, hc, hpc, ?_, ?_, ?_, ?_, ?_⟩
      · intro k ck hk hkj hck
        have hleast := findIdx?_some_least hterm (k - atChar) ck (by omega) ?_
        · exact hleast
        · rw [List.getElem?_drop]
          have : atChar + (k - atChar) = k := by omega
          rw [this]
          exact hck
      · rw [hmts, hk0]
        omega
      · rw [hmts, hk0]
        omega
      · intro k ck hkp hkr hck
        rw [hmts, hk0] at hkr
        obtain ⟨c', hc', hpc'⟩ := takeWhile_pos isCloser
          (text.drop (atChar + mi + 1)) (k - (atChar + mi + 1)) (by omega)
        rw [List.getElem?_drop] at hc'
        have hidx : atChar + mi + 1 + (k - (atChar + mi + 1)) = k := by omega
        rw [hidx] at hc'
        rw [hck] at hc'
        rw [Option.some.inj hc']
        exact hpc'
      · rcases takeWhile_boundary isCloser (text.drop (atChar + mi + 1)) with hall | hex
        · left
          rw [hmts, hk0, hall]
          simp
          omega
        · right
          obtain ⟨c', hc', hpc'⟩ := hex
          rw [List.getElem?_drop] at hc'
          refine ⟨c', ?_, hpc'⟩
          rw [hmts, hk0]
          exact hc'

/-- C2 amended witness: the concrete text of the counterexample at offset 0,
where the first terminator is the period at index 5. -/
theorem claim2_witness :
    (0 : Nat) ≤ (("ab\ncd.").toList).length ∧
    ((∃ j c, 0 ≤ j ∧ (("ab\ncd.").toList)[j]? = some c ∧ isTerm c = true ∧
      (∀ k ck, 0 ≤ k → k < j → (("ab\ncd.").toList)[k]? = some ck →
        isTerm ck = false) ∧
      j + 1 ≤ moveToSentenceEnd (("ab\ncd.").toList) 0 ∧
      moveToSentenceEnd (("ab\ncd.").toList) 0 ≤ (("ab\ncd.").toList).length ∧
      (∀ k ck, j + 1 ≤ k → k < moveToSentenceEnd (("ab\ncd.").toList) 0 →
        (("ab\ncd.").toList)[k]? = some ck → isCloser ck = true) ∧
      (moveToSentenceEnd (("ab\ncd.").toList) 0 = (("ab\ncd.").toList).length ∨
        ∃ cr, (("ab\ncd.").toList)[moveToSentenceEnd (("ab\ncd.").toList) 0]? =
            some cr ∧ isCloser cr = false)) ∨
    ((∀ k ck, 0 ≤ k → (("ab\ncd.").toList)[k]? = some ck → isTerm ck = false) ∧
      ((∃ j, 0 ≤ j ∧ (("ab\ncd.").toList)[j]? = some '\n' ∧
          (∀ k ck, 0 ≤ k → k < j → (("ab\ncd.").toList)[k]? = some ck →
            ck ≠ '\n') ∧
          moveToSentenceEnd (("ab\ncd.").toList) 0 = j) ∨
        ((∀ k ck, 0 ≤ k → (("ab\ncd.").toList)[k]? = some ck → ck ≠ '\n') ∧
          moveToSentenceEnd (("ab\ncd.").toList) 0 = (("ab\ncd.").toList).length)))) :=
  ⟨by decide, claim2_amended_snapping (("ab\ncd.").toList) 0 (by decide)⟩

/-- C4.  The snapped offset never splits an alphanumeric run: it is never the
case that the character immediately before and the character immediately
after the snapped offset are both alphanumeric, so inserting a marker there
never splits a word. -/
theorem claim4_no_word_split (text : List Char) (atChar : Nat) (a b : Char)
    (ha : text[moveToSentenceEnd text atChar - 1]? = some a)
    (hb : text[moveToSentenceEnd text atChar]? = some b) :
    ¬(a.isAlphanum = true ∧ b.isAlphanum = true) := by
  rcases moveToSentenceEnd_cases text atChar with hend | hnl | ⟨j, c, hj, hc, hcls⟩
  · rw [hend] at hb
    rw [List.getElem?_eq_none (Nat.le_refl _)] at hb
    exact absurd hb (by simp)
  · rw [hnl] at hb
    have hbeq : b = '\n' := (Option.some.inj hb).symm
    rintro ⟨_, hb'⟩
    rw [hbeq] at hb'
    simp at hb'
  · rw [hj] at ha
    simp only [Nat.add_sub_cancel] at ha
    rw [hc] at ha
    have haeq : a = c := (Option.some.inj ha).symm
    rintro ⟨ha', _⟩
    rw [haeq] at ha'
    rcases hcls with ht | hcl
    · rw [isTerm_not_alnum c ht] at ha'
      exact absurd ha' (by simp)
    · rw [isCloser_not_alnum c hcl] at ha'
      exact absurd ha' (by simp)

/-- C4 witness: a concrete snap landing right after a period. -/
theorem claim4_witness :
    ((("Hi there. Ok").toList)[moveToSentenceEnd (("Hi there. Ok").toList) 3 - 1]? =
        some '.' ∧
      (("Hi there. Ok").toList)[moveToSentenceEnd (("Hi there. Ok").toList) 3]? =
        some ' ') ∧
    ¬(('.').isAlphanum = true ∧ (' ').isAlphanum = true) :=
  ⟨⟨by decide, by decide⟩,
    claim4_no_word_split (("Hi there. Ok").toList) 3 '.' ' ' (by decide) (by decide)⟩

/-- Generic key-preserving map rewrite for `find?` over numeric keys. -/
lemma find?_map_keyfix_nat {ν : Type} (m : List (Nat × ν)) (f : Nat × ν → Nat × ν)
    (hf : ∀ p, (f p).1 = p.1) (k : Nat) :
    (m.map f).find? (fun p => p.1 == k) = (m.find? (fun p => p.1 == k)).map f := by
  rw [List.find?_map]
  have hp : ((fun p : Nat × ν => p.1 == k) ∘ f) = fun p : Nat × ν => p.1 == k := by
    funext p
    simp [Function.comp, hf p]
  rw [hp]

/-- Lookup after adding one request under its snapped offset. -/
lemma lookupG_addGroup (gs : Groups) (key k : Nat) (ins : NIns) :
    lookupG (addGroup gs key ins) k =
      if key = k then lookupG gs k ++ [ins] else lookupG gs k := by
  unfold addGroup
  split
  · rename_i hany
    simp only [lookupG]
    rw [find?_map_keyfix_nat gs _
      (fun p => by by_cases h : p.1 = key <;> simp [h]) k]
    cases hfind : gs.find? (fun p : Nat × List NIns => p.1 == k) with
    | none =>
      by_cases hkk : key = k
      · subst hkk
        obtain ⟨p, hp, hpk⟩ := List.any_eq_true.mp hany
        have hsome : (gs.find? (fun p : Nat × List NIns => p.1 == key)).isSome :=
          List.find?_isSome.mpr ⟨p, hp, hpk⟩
        rw [hfind] at hsome
        simp at hsome
      · simp [hkk]
    | some q =>
      have hq : q.1 = k := by simpa using List.find?_some hfind
      by_cases hkk : key = k
      · subst hkk
        simp [hq]
      · have hqk : ¬ q.1 = key := by
          rw [hq]
          exact fun h => hkk h.symm
        simp [hqk, hkk]
  · rename_i hany
    simp only [lookupG]
    rw [List.find?_append]
    cases hfind : gs.find? (fun p : Nat × List NIns => p.1 == k) with
    | none =>
      by_cases hkk : key = k
      · subst hkk
        simp
      · have : List.find? (fun p : Nat × List NIns => p.1 == k) [(key, [ins])] =
            none := by
          simp [hkk]
        rw [this]
        simp [hkk]
    | some q =>
      have hq : q.1 = k := by simpa using List.find?_some hfind
      by_cases hkk : key = k
      · subst hkk
        exfalso
        apply hany
        exact List.any_eq_true.mpr ⟨q, List.mem_of_find?_eq_some hfind, by simp [hq]⟩
      · simp [hkk]

/-- The group of a snapped offset is exactly the supplied-order filter of the
requests snapping there. -/
lemma lookupG_buildGroups_fold (text : List Char) (inserts : List NIns)
    (gs : Groups) (k : Nat) :
    lookupG (inserts.foldl
        (fun gs ins => addGroup gs (moveToSentenceEnd text ins.atChar) ins) gs) k =
      lookupG gs k ++
        inserts.filter (fun ins => moveToSentenceEnd text ins.atChar == k) := by
  induction inserts generalizing gs with
  | nil => simp
  | cons ins rest ih =>
    simp only [List.foldl_cons, List.filter_cons]
    rw [ih, lookupG_addGroup]
    by_cases hk : moveToSentenceEnd text ins.atChar = k
    · simp [hk]
    · simp [hk]

/-- Grouping from the empty map. -/
lemma lookupG_buildGroups (text : List Char) (inserts : List NIns) (k : Nat) :
    lookupG (buildGroups text inserts) k =
      inserts.filter (fun ins => moveToSentenceEnd text ins.atChar == k) := by
  unfold buildGroups
  rw [lookupG_buildGroups_fold]
  simp [lookupG]

/-- The reference numbers of one group are consecutive. -/
lemma numberGroup_fst (ref : Nat) (l : List NIns) :
    (numberGroup ref l).map (fun p => p.1) = List.range' ref l.length := by
  induction l generalizing ref with
  | nil => rfl
  | cons ins rest ih =>
    simp [numberGroup, List.range'_succ, ih]

/-- The assignment pairs recorded for one group. -/
lemma processGroup_assignments (st : NumState) (a : Nat) (l : List NIns) :
    (processGroup st a l).assignments =
      st.assignments ++ (List.range' st.refNumber l.length).map (fun n => (a, n)) := by
  unfold processGroup
  simp only []
  congr 1
  rw [← numberGroup_fst st.refNumber l, List.map_map]
  rfl

/-- The next reference number after one group. -/
lemma processGroup_ref (st : NumState) (a : Nat) (l : List NIns) :
    (processGroup st a l).refNumber = st.refNumber + l.length := rfl

/-- The assignment pairs of the whole numbering loop, written directly. -/
def asgOf (gs : Groups) : Nat → List Nat → List (Nat × Nat)
  | _, [] => []
  | ref, a :: rest =>
      (List.range' ref (lookupG gs a).length).map (fun n => (a, n)) ++
        asgOf gs (ref + (lookupG gs a).length) rest

/-- The numbering loop records exactly the directly-written assignments. -/
lemma numberLoop_assignments (gs : Groups) (st : NumState) (keys : List Nat) :
    (numberLoop gs st keys).assignments =
      st.assignments ++ asgOf gs st.refNumber keys := by
  induction keys generalizing st with
  | nil => simp [numberLoop, asgOf]
  | cons a rest ih =>
    simp only [numberLoop, asgOf]
    rw [ih, processGroup_assignments, processGroup_ref, List.append_assoc]

/-- The reference numbers of the whole loop are consecutive from the start. -/
lemma asgOf_snd (gs : Groups) (ref : Nat) (keys : List Nat) :
    (asgOf gs ref keys).map (fun p => p.2) =
      List.range' ref (asgOf gs ref keys).length := by
  induction keys generalizing ref with
  | nil => simp [asgOf]
  | cons a rest ih =>
    simp only [asgOf, List.map_append, List.length_append, List.length_map,
      List.length_range']
    rw [ih, List.map_map]
    have h1 : ((fun p : Nat × Nat => p.2) ∘ fun n : Nat => (a, n)) = id := rfl
    rw [h1, List.map_id]
    rw [Nat.add_comm (lookupG gs a).length
      (asgOf gs (ref + (lookupG gs a).length) rest).length]
    exact List.range'_append_1 ref _ _

/-- Every snapped offset recorded by the loop comes from the key list. -/
lemma asgOf_fst_mem (gs : Groups) (ref : Nat) (keys : List Nat) :
    ∀ x ∈ (asgOf gs ref keys).map (fun p => p.1), x ∈ keys := by
  induction keys generalizing ref with
  | nil => simp [asgOf]
  | cons a rest ih =>
    intro x hx
    simp only [asgOf, List.map_append, List.mem_append] at hx
    rcases hx with hx | hx
    · rw [List.map_map] at hx
      have h1 : ((fun p : Nat × Nat => p.1) ∘ fun n : Nat => (a, n)) =
          fun _ : Nat => a := rfl
      rw [h1] at hx
      obtain ⟨n, _, hn⟩ := List.mem_map.mp hx
      rw [← hn]
      exact List.mem_cons_self a rest
    · exact List.mem_cons_of_mem a (ih _ x hx)

/-- Constant relations are pairwise on any list. -/
lemma pairwise_const_le (a : Nat) (l : List Nat) :
    List.Pairwise (fun _ _ : Nat => a ≤ a) l := by
  induction l with
  | nil => exact List.Pairwise.nil
  | cons x xs ih => exact List.Pairwise.cons (fun y hy => Nat.le_refl a) ih

/-- The snapped offsets recorded by the loop are ascending when the keys
are. -/
lemma sorted_asgOf_fst (gs : Groups) (ref : Nat) (keys : List Nat)
    (h : List.Sorted (fun a b : Nat => a ≤ b) keys) :
    List.Sorted (fun a b : Nat => a ≤ b)
      ((asgOf gs ref keys).map (fun p => p.1)) := by
  induction keys generalizing ref with
  | nil => simp [asgOf]
  | cons a rest ih =>
    have hrest : List.Sorted (fun a b : Nat => a ≤ b) rest := h.of_cons
    have hha : ∀ b ∈ rest, a ≤ b := List.rel_of_sorted_cons h
    simp only [asgOf, List.map_append]
    refine List.pairwise_append.mpr ⟨?_, ih _ hrest, ?_⟩
    · rw [List.map_map]
      have h1 : ((fun p : Nat × Nat => p.1) ∘ fun n : Nat => (a, n)) =
          fun _ : Nat => a := rfl
      rw [h1]
      exact List.pairwise_map.mpr (pairwise_const_le a _)
    · intro x hx y hy
      rw [List.map_map] at hx
      have h1 : ((fun p : Nat × Nat => p.1) ∘ fun n : Nat => (a, n)) =
          fun _ : Nat => a := rfl
      rw [h1] at hx
      obtain ⟨n, _, hn⟩ := List.mem_map.mp hx
      rw [← hn]
      exact hha y (asgOf_fst_mem gs _ rest y hy)

/-- C3.  Reference numbers are assigned sequentially from 1 in the order of
ascending snapped offset; each group's list is the supplied-order filter of
the requests snapping there; and of two assignments with different snapped
offsets the larger offset carries the strictly larger reference number. -/
theorem claim3_reference_numbering (entry : Entry) :
    ((footnoteState entry).assignments.map (fun p => p.2) =
      List.range' 1 (footnoteState entry).assignments.length) ∧
    List.Sorted (fun a b : Nat => a ≤ b)
      ((footnoteState entry).assignments.map (fun p => p.1)) ∧
    (∀ i j (hi : i < (footnoteState entry).assignments.length)
        (hj : j < (footnoteState entry).assignments.length),
      ((footnoteState entry).assignments.get ⟨i, hi⟩).1 <
          ((footnoteState entry).assignments.get ⟨j, hj⟩).1 →
      ((footnoteState entry).assignments.get ⟨i, hi⟩).2 <
          ((footnoteState entry).assignments.get ⟨j, hj⟩).2) ∧
    (∀ k, lookupG (entryGroups entry) k =
      (validNormInserts entry.text.length entry.citationInserts).filter
        (fun ins => moveToSentenceEnd entry.text ins.atChar == k)) := by
  have hasg : (footnoteState entry).assignments =
      asgOf (entryGroups entry) 1 (sortedKeys entry) := by
    unfold footnoteState
    rw [numberLoop_assignments]
    rfl
  have hsorted_keys : List.Sorted (fun a b : Nat => a ≤ b) (sortedKeys entry) := by
    unfold sortedKeys
    exact List.sorted_insertionSort _ _
  have h1 : (footnoteState entry).assignments.map (fun p => p.2) =
      List.range' 1 (footnoteState entry).assignments.length := by
    rw [hasg]
    exact asgOf_snd _ _ _
  have h2 : List.Sorted (fun a b : Nat => a ≤ b)
      ((footnoteState entry).assignments.map (fun p => p.1)) := by
    rw [hasg]
    exact sorted_asgOf_fst _ _ _ hsorted_keys
  refine ⟨h1, h2, ?_, ?_⟩
  · intro i j hi hj hlt
    have hsnd : ∀ (m : Nat) (hm : m < (footnoteState entry).assignments.length),
        ((footnoteState entry).assignments.get ⟨m, hm⟩).2 = 1 + m := by
      intro m hm
      have hq : ((footnoteState entry).assignments.map
          (fun p : Nat × Nat => p.2))[m]? =
          (List.range' 1 (footnoteState entry).assignments.length)[m]? := by
        rw [h1]
      have hlhs : ((footnoteState entry).assignments.map
          (fun p : Nat × Nat => p.2))[m]? =
          some (((footnoteState entry).assignments.get ⟨m, hm⟩).2) := by
        rw [List.getElem?_eq_getElem (by simpa using hm)]
        simp [List.getElem_map]
      have hrhs : (List.range' 1 (footnoteState entry).assignments.length)[m]? =
          some (1 + m) := by
        rw [List.getElem?_eq_getElem (by simpa using hm)]
        simp [List.getElem_range']
      rw [hlhs, hrhs] at hq
      exact Option.some.inj hq
    have hij : i < j := by
      by_contra hij
      rcases Nat.lt_or_ge j i with hji | hji
      · have hle2 := List.pairwise_iff_get.mp h2
          ⟨j, by simpa using hj⟩ ⟨i, by simpa using hi⟩ hji
        simp only [List.get_eq_getElem, List.getElem_map] at hle2
        simp only [List.get_eq_getElem] at hlt
        omega
      · have hji' : j = i ∨ i < j := by omega
        rcases hji' with hji' | hji'
        · subst hji'
          simp only [List.get_eq_getElem] at hlt
          omega
        · exact hij hji'
    rw [hsnd i hi, hsnd j hj]
    omega
  · intro k
    unfold entryGroups
    exact lookupG_buildGroups _ _ k

/-- C3 witness: two requests supplied in reverse offset order snap to
offsets 10 and 27 and receive numbers 1 and 2. -/
theorem claim3_witness :
    (((footnoteState (Entry.mk ("e4") ("info")
        (("First one. Second one here.").toList)
        [CitationInsert.mk (some 22) [("b")],
          CitationInsert.mk (some 2) [("a")]])).assignments.get
        ⟨0, by decide⟩).1 <
      ((footnoteState (Entry.mk ("e4") ("info")
        (("First one. Second one here.").toList)
        [CitationInsert.mk (some 22) [("b")],
          CitationInsert.mk (some 2) [("a")]])).assignments.get
        ⟨1, by decide⟩).1) ∧
    (((footnoteState (Entry.mk ("e4") ("info")
        (("First one. Second one here.").toList)
        [CitationInsert.mk (some 22) [("b")],
          CitationInsert.mk (some 2) [("a")]])).assignments.get
        ⟨0, by decide⟩).2 <
      ((footnoteState (Entry.mk ("e4") ("info")
        (("First one. Second one here.").toList)
        [CitationInsert.mk (some 22) [("b")],
          CitationInsert.mk (some 2) [("a")]])).assignments.get
        ⟨1, by decide⟩).2) :=
  ⟨by decide,
    (claim3_reference_numbering (Entry.mk ("e4") ("info")
      (("First one. Second one here.").toList)
      [CitationInsert.mk (some 22) [("b")],
        CitationInsert.mk (some 2) [("a")]])).2.2.1 0 1 (by decide) (by decide)
      (by decide)⟩

/-- C8 witness: an entry with one out-of-bounds and one malformed request. -/
theorem claim8_witness :
    validNormInserts (("abc").toList).length
        [CitationInsert.mk (some 99) [("42")], CitationInsert.mk none [("1")]] = [] ∧
    ((applyWikipediaFootnotes (Entry.mk ("e3") ("info") (("abc").toList)
        [CitationInsert.mk (some 99) [("42")], CitationInsert.mk none [("1")]])).text =
      ("abc").toList ∧
    (applyWikipediaFootnotes (Entry.mk ("e3") ("info") (("abc").toList)
        [CitationInsert.mk (some 99) [("42")], CitationInsert.mk none [("1")]])).footnotes =
      []) :=
  ⟨by decide,
    (claim8_invalid_requests_excluded (Entry.mk ("e3") ("info") (("abc").toList)
      [CitationInsert.mk (some 99) [("42")], CitationInsert.mk none [("1")]])).2
      (by decide)⟩

end Footnotes

namespace Curate

/-- Rewriting `find?` through a key-preserving map: the predicate only looks
at the key, so mapping a value-only function commutes with the lookup. -/
lemma find?_map_keyfix (m : AList) (f : String × Nat → String × Nat)
    (hf : ∀ p, (f p).1 = p.1) (k : String) :
    (m.map f).find? (fun p => p.1 == k) = (m.find? (fun p => p.1 == k)).map f := by
  rw [List.find?_map]
  have hp : ((fun p : String × Nat => p.1 == k) ∘ f) = fun p : String × Nat => p.1 == k := by
    funext p
    simp [Function.comp, hf p]
  rw [hp]

/-- Key membership characterised by an element of the list. -/
lemma hasKey_iff (m : AList) (k : String) :
    hasKey m k = true ↔ ∃ p ∈ m, p.1 = k := by
  simp [hasKey, getA, List.find?_isSome]

/-- A key-preserving map leaves key membership unchanged. -/
lemma hasKey_map_keyfix (m : AList) (f : String × Nat → String × Nat)
    (hf : ∀ p, (f p).1 = p.1) (k : String) :
    hasKey (m.map f) k = hasKey m k := by
  unfold hasKey getA
  rw [find?_map_keyfix m f hf k]
  cases m.find? (fun p : String × Nat => p.1 == k) <;> simp

/-- The overwrite function of `setA` preserves keys. -/
lemma setA_overwrite_keyfix (k : String) (v : Nat) :
    ∀ p : String × Nat, ((fun p : String × Nat => if p.1 == k then (k, v) else p) p).1 = p.1 := by
  intro p
  by_cases h : p.1 = k
  · simp [h]
  · simp [h]

/-- A key just set is present. -/
lemma hasKey_setA_self (m : AList) (k : String) (v : Nat) :
    hasKey (setA m k v) k = true := by
  unfold setA
  split
  · rename_i h
    rw [hasKey_map_keyfix m _ (setA_overwrite_keyfix k v) k]
    rw [hasKey_iff]
    obtain ⟨p, hp, hpk⟩ := List.any_eq_true.mp h
    exact ⟨p, hp, by simpa using hpk⟩
  · rw [hasKey_iff]
    exact ⟨(k, v), by simp⟩

/-- Setting one key does not change the lookup of another. -/
lemma getA_setA_ne (m : AList) (k : String) (v : Nat) (k' : String) (h : k' ≠ k) :
    getA (setA m k v) k' = getA m k' := by
  unfold setA
  split
  · unfold getA
    rw [find?_map_keyfix m _ (setA_overwrite_keyfix k v) k']
    cases hfind : m.find? (fun p : String × Nat => p.1 == k') with
    | none => simp
    | some q =>
      have hq : q.1 = k' := by simpa using List.find?_some hfind
      have hqk : q.1 ≠ k := by
        rw [hq]
        exact h
      simp [hqk]
  · unfold getA
    rw [List.find?_append]
    have hnone : List.find? (fun p : String × Nat => p.1 == k') [(k, v)] = none := by
      simp
      exact fun hkk => absurd hkk.symm h
    rw [hnone, Option.or_none]

/-- Section resolution never touches the anchor index. -/
lemma resolveCategory_msgIds (st : ApplyState) (c : String) :
    (resolveCategory st c).1.messageIdToLine = st.messageIdToLine := by
  unfold resolveCategory
  split <;> rfl

/-- Section resolution never touches the inserted count. -/
lemma resolveCategory_count (st : ApplyState) (c : String) :
    (resolveCategory st c).1.insertedCount = st.insertedCount := by
  unfold resolveCategory
  split <;> rfl

/-- Section resolution never touches the warning count. -/
lemma resolveCategory_warnings (st : ApplyState) (c : String) :
    (resolveCategory st c).1.warnings = st.warnings := by
  unfold resolveCategory
  split <;> rfl

/-- Section resolution never shrinks the document. -/
lemma resolveCategory_len (st : ApplyState) (c : String) :
    st.newLines.length ≤ (resolveCategory st c).1.newLines.length := by
  unfold resolveCategory
  split
  · exact Nat.le_refl _
  · simp

/-- A splice always adds exactly one line. -/
lemma spliceIns_length (l : List String) (n : Nat) (a : String) :
    (spliceIns l n a).length = l.length + 1 := by
  simp [spliceIns]
  omega

/-- Key membership after a finished insertion reduces to membership after the
`setA` of the new anchor: the shift pass only rewrites values. -/
lemma hasKey_finishInsert (st : ApplyState) (msgId block : String) (i w : Nat) (k : String) :
    hasKey (finishInsert st msgId block i w).messageIdToLine k =
      hasKey (setA st.messageIdToLine msgId i) k := by
  unfold finishInsert
  exact hasKey_map_keyfix _ _
    (fun p => by by_cases h : i ≤ p.2 ∧ p.1 ≠ msgId <;> simp [h]) k

/-- A skipped duplicate leaves the state untouched: the message exists in the
input index and its anchor is already recorded. -/
lemma step_skip (idx : MsgIndex) (st : ApplyState) (op : Operation) (msg : Msg)
    (h1 : mfind? idx op.messageId = some msg)
    (h2 : hasKey st.messageIdToLine op.messageId = true) :
    step idx st op = st := by
  simp [step, h1, h2]

/-- After a step whose message exists in the input index, the message's anchor
is recorded (it either already was, or the insertion recorded it). -/
lemma hasKey_step_self (idx : MsgIndex) (st : ApplyState) (op : Operation) (msg : Msg)
    (h1 : mfind? idx op.messageId = some msg) :
    hasKey (step idx st op).messageIdToLine op.messageId = true := by
  by_cases h2 : hasKey st.messageIdToLine op.messageId = true
  · rw [step_skip idx st op msg h1 h2]
    exact h2
  · simp only [step, h1]
    simp only [Bool.not_eq_true] at h2
    simp only [h2, Bool.false_eq_true, if_false]
    rw [hasKey_finishInsert, resolveCategory_msgIds]
    exact hasKey_setA_self _ _ _

/-- A step never erases a recorded anchor key. -/
lemma hasKey_step_mono (idx : MsgIndex) (st : ApplyState) (op : Operation) (k : String)
    (h : hasKey st.messageIdToLine k = true) :
    hasKey (step idx st op).messageIdToLine k = true := by
  cases h1 : mfind? idx op.messageId with
  | none => simpa [step, h1] using h
  | some msg =>
    by_cases h2 : hasKey st.messageIdToLine op.messageId = true
    · rw [step_skip idx st op msg h1 h2]
      exact h
    · simp only [step, h1]
      simp only [Bool.not_eq_true] at h2
      simp only [h2, Bool.false_eq_true, if_false]
      rw [hasKey_finishInsert, resolveCategory_msgIds]
      by_cases hk : k = op.messageId
      · subst hk
        exact hasKey_setA_self _ _ _
      · unfold hasKey
        rw [getA_setA_ne _ _ _ _ hk]
        exact h

/-- A whole batch never erases a recorded anchor key. -/
lemma hasKey_foldl_mono (idx : MsgIndex) (ops : List Operation) (st : ApplyState)
    (k : String) (h : hasKey st.messageIdToLine k = true) :
    hasKey ((ops.foldl (step idx) st)).messageIdToLine k = true := by
  induction ops generalizing st with
  | nil => exact h
  | cons op rest ih =>
    exact ih (step idx st op) (hasKey_step_mono idx st op k h)

/-- A concrete message used in the concrete scenarios below. -/
def exMsgA : Msg :=
  Msg.mk ("1001") (some ("2025-03-01T12:00:00")) (some ("Ann"))
    ("Great ramen at Ichiran.") none

/-- A one-message input index for `exMsgA`. -/
def exIdxA : MsgIndex := [(("1001"), exMsgA)]

/-- The append operation of the empty-document scenario. -/
def exOpA : Operation := Operation.mk ("1001") ("## Food") (.pstr ("append"))

/-- The whitespace-section operation of the malformed-name scenario. -/
def exOpW : Operation := Operation.mk ("1001") ("   ") (.pstr ("append"))

/-- A message replying to another message. -/
def exMsgR : Msg := Msg.mk ("7") none none ("needs this one") (some ("9"))

/-- The message `exMsgR` replies to. -/
def exMsgT : Msg := Msg.mk ("9") none none ("hello world") none

/-- An input index holding both the replying and the replied-to message. -/
def exIdxR : MsgIndex := [(("7"), exMsgR), (("9"), exMsgT)]

/-- The operation inserting the replying message. -/
def exOpR : Operation := Operation.mk ("7") ("## Food") (.pstr ("append"))

/-- C1.  For every starting document and every operation whose block exists in
the input index, a batch containing the same operation twice produces exactly
the state — document lines, indices, inserted-block count — and the document
text of the batch with the second occurrence removed: the second occurrence
finds the anchor already recorded and is skipped. -/
theorem claim1_duplicate_operation_idempotent
    (lines : List String) (pre mid post : List Operation) (op : Operation)
    (idx : MsgIndex) (msg : Msg) (h : mfind? idx op.messageId = some msg) :
    applyOpsState lines (pre ++ [op] ++ mid ++ [op] ++ post) idx =
      applyOpsState lines (pre ++ [op] ++ mid ++ post) idx ∧
    applyOperations lines (pre ++ [op] ++ mid ++ [op] ++ post) idx =
      applyOperations lines (pre ++ [op] ++ mid ++ post) idx := by
  have hstate : applyOpsState lines (pre ++ [op] ++ mid ++ [op] ++ post) idx =
      applyOpsState lines (pre ++ [op] ++ mid ++ post) idx := by
    unfold applyOpsState
    simp only [List.foldl_append, List.foldl_cons, List.foldl_nil]
    have h1 : hasKey ((List.foldl (step idx) (initState lines) pre).messageIdToLine)
        op.messageId = true ∨ True := Or.inr trivial
    set s0 := List.foldl (step idx) (initState lines) pre with hs0
    set s1 := step idx s0 op with hs1
    have hk1 : hasKey s1.messageIdToLine op.messageId = true :=
      hasKey_step_self idx s0 op msg h
    have hk2 : hasKey (List.foldl (step idx) s1 mid).messageIdToLine op.messageId = true :=
      hasKey_foldl_mono idx mid s1 op.messageId hk1
    rw [step_skip idx (List.foldl (step idx) s1 mid) op msg h hk2]
  exact ⟨hstate, by unfold applyOperations; rw [hstate]⟩

/-- C1 witness: the duplicate-operation batch on a concrete empty document. -/
theorem claim1_witness :
    mfind? exIdxA exOpA.messageId = some exMsgA ∧
    (applyOpsState [("")] ([] ++ [exOpA] ++ [] ++ [exOpA] ++ []) exIdxA =
        applyOpsState [("")] ([] ++ [exOpA] ++ [] ++ []) exIdxA ∧
      applyOperations [("")] ([] ++ [exOpA] ++ [] ++ [exOpA] ++ []) exIdxA =
        applyOperations [("")] ([] ++ [exOpA] ++ [] ++ []) exIdxA) :=
  ⟨by decide, claim1_duplicate_operation_idempotent [("")] [] [] [] exOpA exIdxA exMsgA
    (by decide)⟩

/-- A step that actually inserts, written through its three phases. -/
lemma step_insert (idx : MsgIndex) (st : ApplyState) (op : Operation) (msg : Msg)
    (h1 : mfind? idx op.messageId = some msg)
    (h2 : hasKey st.messageIdToLine op.messageId = false) :
    step idx st op =
      finishInsert (resolveCategory st (jsTrim op.category)).1 op.messageId
        (formatMessageBlock msg idx)
        (resolvePosition (resolveCategory st (jsTrim op.category)).1
          (resolveCategory st (jsTrim op.category)).2 op.position).1
        (resolvePosition (resolveCategory st (jsTrim op.category)).1
          (resolveCategory st (jsTrim op.category)).2 op.position).2 := by
  simp only [step, h1, h2, Bool.false_eq_true, if_false]

/-- Position resolution of the literal `append` string. -/
lemma resolvePosition_append (st : ApplyState) (catLine : Nat) :
    resolvePosition st catLine (Position.pstr ("append")) =
      (nextCatScan st.newLines catLine, 0) := by
  simp [resolvePosition]

/-- Position resolution of the literal `prepend` string. -/
lemma resolvePosition_prependStr (st : ApplyState) (catLine : Nat) :
    resolvePosition st catLine (Position.pstr ("prepend")) = (catLine + 1, 0) := by
  simp [resolvePosition]

/-- Position resolution of any other string keeps the default. -/
lemma resolvePosition_strOther (st : ApplyState) (catLine : Nat) (s : String)
    (hp : (s == ("prepend")) = false) (ha : (s == ("append")) = false) :
    resolvePosition st catLine (Position.pstr s) = (catLine + 1, 0) := by
  simp [resolvePosition, hp, ha]

/-- Position resolution of an object with both anchor fields falsy keeps the
default. -/
lemma resolvePosition_objNeither (st : ApplyState) (catLine : Nat)
    (a b : Option String) (ha : optTruthy a = false) (hb : optTruthy b = false) :
    resolvePosition st catLine (Position.pobj a b) = (catLine + 1, 0) := by
  simp only [resolvePosition]
  rw [ha, hb]
  simp

/-- Position resolution of a missing `afterId` reference: the append scan
plus one warning. -/
lemma resolvePosition_afterMiss (st : ApplyState) (catLine : Nat) (a : String)
    (b' : Option String) (ha : a.isEmpty = false)
    (hmiss : getA st.messageIdToLine a = none) :
    resolvePosition st catLine (Position.pobj (some a) b') =
      (nextCatScan st.newLines catLine, 1) := by
  simp [resolvePosition, optTruthy, ha, hmiss]

/-- Position resolution of a missing `beforeId` reference: the prepend
default plus one warning. -/
lemma resolvePosition_beforeMiss (st : ApplyState) (catLine : Nat)
    (a' : Option String) (b : String) (ha : optTruthy a' = false)
    (hb : b.isEmpty = false) (hmiss : getA st.messageIdToLine b = none) :
    resolvePosition st catLine (Position.pobj a' (some b)) = (catLine + 1, 1) := by
  simp only [resolvePosition]
  rw [ha]
  simp [optTruthy, hb, hmiss]

/-- A warning-reporting insertion is the silent insertion plus one warning. -/
lemma finishInsert_warnbump (st : ApplyState) (msgId block : String) (i : Nat) :
    finishInsert st msgId block i 1 =
      (let s := finishInsert st msgId block i 0
       { s with warnings := s.warnings + 1 }) := by
  simp [finishInsert]

/-- C5.  When a relative anchor reference is missing from the anchor index,
the operation behaves exactly like the corresponding fallback position —
`append` for a missing `afterId`, `prepend` for a missing `beforeId` — except
that one extra warning is reported; the block is still inserted and counted,
and the batch continues. -/
theorem claim5_anchor_fallbacks (idx : MsgIndex) (st : ApplyState) (op : Operation)
    (msg : Msg) (h1 : mfind? idx op.messageId = some msg)
    (h2 : hasKey st.messageIdToLine op.messageId = false) :
    (∀ a b', op.position = Position.pobj (some a) b' → a.isEmpty = false →
      getA st.messageIdToLine a = none →
      step idx st op =
        (let s := step idx st { op with position := Position.pstr ("append") }
         { s with warnings := s.warnings + 1 }) ∧
      (step idx st op).insertedCount = st.insertedCount + 1) ∧
    (∀ a' b, op.position = Position.pobj a' (some b) → optTruthy a' = false →
      b.isEmpty = false → getA st.messageIdToLine b = none →
      step idx st op =
        (let s := step idx st { op with position := Position.pstr ("prepend") }
         { s with warnings := s.warnings + 1 }) ∧
      (step idx st op).insertedCount = st.insertedCount + 1) := by
  have hresolve : (resolveCategory st (jsTrim op.category)).1.messageIdToLine =
      st.messageIdToLine := resolveCategory_msgIds st (jsTrim op.category)
  constructor
  · intro a b' hpos ha hmiss
    have hmiss' : getA (resolveCategory st (jsTrim op.category)).1.messageIdToLine a =
        none := by rw [hresolve]; exact hmiss
    have hstep : step idx st op =
        finishInsert (resolveCategory st (jsTrim op.category)).1 op.messageId
          (formatMessageBlock msg idx)
          (nextCatScan (resolveCategory st (jsTrim op.category)).1.newLines
            (resolveCategory st (jsTrim op.category)).2) 1 := by
      rw [step_insert idx st op msg h1 h2, hpos,
        resolvePosition_afterMiss _ _ _ _ ha hmiss']
    have hvar : step idx st { op with position := Position.pstr ("append") } =
        finishInsert (resolveCategory st (jsTrim op.category)).1 op.messageId
          (formatMessageBlock msg idx)
          (nextCatScan (resolveCategory st (jsTrim op.category)).1.newLines
            (resolveCategory st (jsTrim op.category)).2) 0 := by
      rw [step_insert idx st { op with position := Position.pstr ("append") } msg h1 h2,
        resolvePosition_append]
    refine ⟨?_, ?_⟩
    · rw [hstep, hvar, finishInsert_warnbump]
    · rw [hstep]
      simp [finishInsert, resolveCategory_count]
  · intro a' b hpos ha hb hmiss
    have hmiss' : getA (resolveCategory st (jsTrim op.category)).1.messageIdToLine b =
        none := by rw [hresolve]; exact hmiss
    have hstep : step idx st op =
        finishInsert (resolveCategory st (jsTrim op.category)).1 op.messageId
          (formatMessageBlock msg idx)
          ((resolveCategory st (jsTrim op.category)).2 + 1) 1 := by
      rw [step_insert idx st op msg h1 h2, hpos,
        resolvePosition_beforeMiss _ _ _ _ ha hb hmiss']
    have hvar : step idx st { op with position := Position.pstr ("prepend") } =
        finishInsert (resolveCategory st (jsTrim op.category)).1 op.messageId
          (formatMessageBlock msg idx)
          ((resolveCategory st (jsTrim op.category)).2 + 1) 0 := by
      rw [step_insert idx st { op with position := Position.pstr ("prepend") } msg h1 h2,
        resolvePosition_prependStr]
    refine ⟨?_, ?_⟩
    · rw [hstep, hvar, finishInsert_warnbump]
    · rw [hstep]
      simp [finishInsert, resolveCategory_count]

/-- C6 counterexample: an operation whose section name is whitespace-only is
not rejected — on an empty document it is inserted (under a freshly created
empty header) and counted, contradicting the claimed reject-and-skip. -/
theorem claim6_counterexample :
    (applyOpsState [("")] [exOpW] exIdxA).insertedCount = 1 ∧
    (applyOpsState [("")] [exOpW] exIdxA).newLines ≠ [("")] := by
  constructor
  · decide
  · decide

/-- C6 amended: an operation whose section name trims to the empty string is
not rejected; whenever its message exists and is not yet anchored, the block
is inserted and counted exactly like any other operation, and the document
grows. -/
theorem claim6_amended_empty_section (idx : MsgIndex) (st : ApplyState)
    (op : Operation) (msg : Msg) (h1 : mfind? idx op.messageId = some msg)
    (h2 : hasKey st.messageIdToLine op.messageId = false)
    (h3 : jsTrim op.category = ("")) :
    (step idx st op).insertedCount = st.insertedCount + 1 ∧
    st.newLines.length < (step idx st op).newLines.length := by
  rw [step_insert idx st op msg h1 h2]
  constructor
  · simp [finishInsert, resolveCategory_count]
  · have hl := resolveCategory_len st (jsTrim op.category)
    simp only [finishInsert, spliceIns_length]
    omega

/-- C6 amended witness: the concrete whitespace-name operation. -/
theorem claim6_witness :
    (mfind? exIdxA exOpW.messageId = some exMsgA ∧
      hasKey (initState [("")]).messageIdToLine exOpW.messageId = false ∧
      jsTrim exOpW.category = ("")) ∧
    ((step exIdxA (initState [("")]) exOpW).insertedCount =
        (initState [("")]).insertedCount + 1 ∧
      (initState [("")]).newLines.length <
        (step exIdxA (initState [("")]) exOpW).newLines.length) :=
  ⟨⟨by decide, by decide, by decide⟩,
    claim6_amended_empty_section exIdxA (initState [("")]) exOpW exMsgA
      (by decide) (by decide) (by decide)⟩

/-- C7 counterexample: on the empty document (a single empty line) the gained
text has two leading line breaks and no trailing one, so the claimed gained
text is not what the code produces. -/
theorem claim7_counterexample :
    applyOperations [("")] [exOpA] exIdxA ≠
      ("\n## Food\n\n") ++ formatMessageBlock exMsgA exIdxA ++ ("\n") := by
  decide

/-- C7 amended: the empty document plus `{append, "## Food", block A}` yields
exactly two line breaks, the header, a blank line and the block with no
trailing line break; in general a missing section header is appended at
document end as a blank line, the header line and a blank line, its recorded
index being the header line. -/
theorem claim7_amended_empty_document :
    applyOperations [("")] [exOpA] exIdxA =
      ("\n\n## Food\n\n") ++ formatMessageBlock exMsgA exIdxA ∧
    ∀ (st : ApplyState) (cat : String), getA st.categoryIndex cat = none →
      resolveCategory st cat =
        ({ st with newLines := st.newLines ++ [(""), cat, ("")]
                   categoryIndex := setA st.categoryIndex cat (st.newLines.length + 1) },
          st.newLines.length + 1) := by
  constructor
  · decide
  · intro st cat h
    simp only [resolveCategory, h]
    have hlen : (st.newLines ++ [(""), cat, ("")]).length - 2 = st.newLines.length + 1 := by
      simp
    rw [hlen]

/-- C7 amended witness: the fresh-section branch on a concrete state. -/
theorem claim7_witness :
    getA (initState [("")]).categoryIndex ("## Food") = none ∧
    resolveCategory (initState [("")]) ("## Food") =
      ({ initState [("")] with
          newLines := (initState [("")]).newLines ++ [(""), ("## Food"), ("")]
          categoryIndex := setA (initState [("")]).categoryIndex ("## Food")
            ((initState [("")]).newLines.length + 1) },
        (initState [("")]).newLines.length + 1) :=
  ⟨by decide, claim7_amended_empty_document.2 (initState [("")]) ("## Food") (by decide)⟩

/-- C9 counterexample: the quoted reply preface is chosen by membership in
the input message index, not by residency in the document — here the
referenced block is nowhere in the document (neither before nor after the
batch) yet the full quoted preface is used. -/
theorem claim9_counterexample :
    jsStartsWith (formatMessageBlock exMsgR exIdxR) ("> In reply to: ") = true ∧
    hasKey (initState [("")]).messageIdToLine ("9") = false ∧
    hasKey (applyOpsState [("")] [exOpR] exIdxR).messageIdToLine ("9") = false ∧
    (applyOpsState [("")] [exOpR] exIdxR).newLines.any
      (fun l => jsStartsWith l ("> In reply to: ")) = true := by
  refine ⟨by decide, by decide, by decide, by decide⟩

/-- C9 amended: for a block with a truthy reply reference, the quoted-snippet
preface is used exactly when the referenced id is present in the supplied
message index (the input batch), and the lighter `(Reply to ID: ...)` line is
used when it is absent from that index — independent of the document. -/
theorem claim9_amended_reply_preface (msg : Msg) (idx : MsgIndex) (r : String)
    (hr : msg.replyTo = some r) (hne : r.isEmpty = false) :
    (∀ R, mfind? idx r = some R →
      formatMessageBlock msg idx =
        ("> In reply to: \"") ++ jsTrim (sliceTo60 R.content) ++ ("\"\n") ++
          msgBaseLine msg) ∧
    (mfind? idx r = none →
      formatMessageBlock msg idx =
        ("> (Reply to ID: ") ++ r ++ (")\n") ++ msgBaseLine msg) := by
  constructor
  · intro R hR
    simp [formatMessageBlock, hr, hne, hR]
  · intro hR
    simp [formatMessageBlock, hr, hne, hR]

/-- C9 amended witness: the quoted preface on the concrete reply pair. -/
theorem claim9_witness :
    (exMsgR.replyTo = some ("9") ∧ ("9").isEmpty = false ∧
      mfind? exIdxR ("9") = some exMsgT) ∧
    formatMessageBlock exMsgR exIdxR =
      ("> In reply to: \"") ++ jsTrim (sliceTo60 exMsgT.content) ++ ("\"\n") ++
        msgBaseLine exMsgR :=
  ⟨⟨rfl, by decide, by decide⟩,
    (claim9_amended_reply_preface exMsgR exIdxR ("9") rfl (by decide)).1 exMsgT
      (by decide)⟩

/-- C10.  A string position other than `append`/`prepend`, or an object
position with both anchor fields falsy, behaves exactly like `prepend`: the
block lands right after the section header, no warning is reported and the
block is counted as inserted. -/
theorem claim10_unknown_position_prepends (idx : MsgIndex) (st : ApplyState)
    (op : Operation) (msg : Msg) (h1 : mfind? idx op.messageId = some msg)
    (h2 : hasKey st.messageIdToLine op.messageId = false) :
    (∀ s, op.position = Position.pstr s → (s == ("prepend")) = false →
      (s == ("append")) = false →
      step idx st op = step idx st { op with position := Position.pstr ("prepend") } ∧
      (step idx st op).insertedCount = st.insertedCount + 1 ∧
      (step idx st op).warnings = st.warnings ∧
      (step idx st op).newLines =
        spliceIns (resolveCategory st (jsTrim op.category)).1.newLines
          ((resolveCategory st (jsTrim op.category)).2 + 1)
          (formatMessageBlock msg idx)) ∧
    (∀ a b, op.position = Position.pobj a b → optTruthy a = false →
      optTruthy b = false →
      step idx st op = step idx st { op with position := Position.pstr ("prepend") } ∧
      (step idx st op).insertedCount = st.insertedCount + 1 ∧
      (step idx st op).warnings = st.warnings ∧
      (step idx st op).newLines =
        spliceIns (resolveCategory st (jsTrim op.category)).1.newLines
          ((resolveCategory st (jsTrim op.category)).2 + 1)
          (formatMessageBlock msg idx)) := by
  have hvar : step idx st { op with position := Position.pstr ("prepend") } =
      finishInsert (resolveCategory st (jsTrim op.category)).1 op.messageId
        (formatMessageBlock msg idx)
        ((resolveCategory st (jsTrim op.category)).2 + 1) 0 := by
    rw [step_insert idx st { op with position := Position.pstr ("prepend") } msg h1 h2,
      resolvePosition_prependStr]
  constructor
  · intro s hpos hp ha
    have hstep : step idx st op =
        finishInsert (resolveCategory st (jsTrim op.category)).1 op.messageId
          (formatMessageBlock msg idx)
          ((resolveCategory st (jsTrim op.category)).2 + 1) 0 := by
      rw [step_insert idx st op msg h1 h2, hpos, resolvePosition_strOther _ _ _ hp ha]
    refine ⟨by rw [hstep, hvar], ?_, ?_, ?_⟩
    · rw [hstep]
      simp [finishInsert, resolveCategory_count]
    · rw [hstep]
      simp [finishInsert, resolveCategory_warnings]
    · rw [hstep]
      simp [finishInsert]
  · intro a b hpos ha hb
    have hstep : step idx st op =
        finishInsert (resolveCategory st (jsTrim op.category)).1 op.messageId
          (formatMessageBlock msg idx)
          ((resolveCategory st (jsTrim op.category)).2 + 1) 0 := by
      rw [step_insert idx st op msg h1 h2, hpos, resolvePosition_objNeither _ _ _ _ ha hb]
    refine ⟨by rw [hstep, hvar], ?_, ?_, ?_⟩
    · rw [hstep]
      simp [finishInsert, resolveCategory_count]
    · rw [hstep]
      simp [finishInsert, resolveCategory_warnings]
    · rw [hstep]
      simp [finishInsert]

/-- C10 witness: a concrete unknown string position. -/
theorem claim10_witness :
    (mfind? exIdxA ("1001") = some exMsgA ∧
      hasKey (initState [("")]).messageIdToLine ("1001") = false) ∧
    (step exIdxA (initState [("")])
        (Operation.mk ("1001") ("## Food") (.pstr ("APPEND"))) =
      step exIdxA (initState [("")])
        (Operation.mk ("1001") ("## Food") (.pstr ("prepend"))) ∧
      (step exIdxA (initState [("")])
        (Operation.mk ("1001") ("## Food") (.pstr ("APPEND")))).insertedCount =
        (initState [("")]).insertedCount + 1 ∧
      (step exIdxA (initState [("")])
        (Operation.mk ("1001") ("## Food") (.pstr ("APPEND")))).warnings =
        (initState [("")]).warnings ∧
      (step exIdxA (initState [("")])
        (Operation.mk ("1001") ("## Food") (.pstr ("APPEND")))).newLines =
        spliceIns (resolveCategory (initState [("")]) (jsTrim ("## Food"))).1.newLines
          ((resolveCategory (initState [("")]) (jsTrim ("## Food"))).2 + 1)
          (formatMessageBlock exMsgA exIdxA)) :=
  ⟨⟨by decide, by decide⟩,
    (claim10_unknown_position_prepends exIdxA (initState [("")])
      (Operation.mk ("1001") ("## Food") (.pstr ("APPEND"))) exMsgA
      (by decide) (by decide)).1 ("APPEND") rfl (by decide) (by decide)⟩

/-- C5 witness: both fallbacks fired on a concrete state with no anchors. -/
theorem claim5_witness :
    (mfind? exIdxA ("1001") = some exMsgA ∧
      hasKey (initState [("")]).messageIdToLine ("1001") = false) ∧
    (step exIdxA (initState [("")])
        (Operation.mk ("1001") ("## Food") (.pobj (some ("42")) none)) =
      (let s := step exIdxA (initState [("")])
          (Operation.mk ("1001") ("## Food") (.pstr ("append")))
       { s with warnings := s.warnings + 1 }) ∧
      (step exIdxA (initState [("")])
        (Operation.mk ("1001") ("## Food") (.pobj (some ("42")) none))).insertedCount =
        (initState [("")]).insertedCount + 1) :=
  ⟨⟨by decide, by decide⟩,
    (claim5_anchor_fallbacks exIdxA (initState [("")])
      (Operation.mk ("1001") ("## Food") (.pobj (some ("42")) none)) exMsgA
      (by decide) (by decide)).1 ("42") none rfl (by decide) (by decide)⟩

end Curate
